import Mathlib

/-!
Shallow embedding of the evolutionary core in `src/Evoli_Kern.rs`.

Effectful Rust code (file system, random draws, clock, network, process
spawning) is modelled by explicit oracle records: each random draw and each
fallible I/O action reads one oracle field.  `&mut self` methods become
functions `EnhancedEvoliKern → ... → EnhancedEvoliKern × Except Unit α`,
returning the state even on error, exactly as in Rust where `?` propagates
an error after earlier in-place field updates have already happened.
Character indices stand for Rust byte indices (all inputs considered are
ASCII).  Float-valued fields (`fitness_score`, `cpu_usage`), `Instant`
fields and the `memory_usage` size-of probe are omitted: no claim mentions
them and no modelled control flow depends on them.  The managed file system
is the pair of flat directories (knowledge store, retrieval cache); files
written outside those two directories (staging file, generation backups,
module files) are modelled only through their write-success oracles, since
no modelled code ever reads them back.
-/

namespace EvoliKern

/-- `MAX_STORAGE_BYTES` from the source: 1 TiB. -/
def MAX_STORAGE_BYTES : Nat := 1099511627776

/-! ### String helpers mirroring the Rust string primitives

All are structural recursions over `List Char` (with an explicit fuel
argument where the Rust loop advances by more than one character), so that
they reduce inside the kernel on concrete inputs. -/

/-- Split a character list at each `'\n'`, keeping empty segments
(the splitting part of Rust `str::lines`). -/
def splitOnNl : List Char → List (List Char)
  | [] => [[]]
  | c :: rest =>
    let r := splitOnNl rest
    if c = '\n' then [] :: r
    else
      match r with
      | [] => [[c]]
      | h :: t => (c :: h) :: t

/-- Rust `str::lines`: split on `'\n'`, drop a final empty segment
(produced by a trailing newline), strip one trailing `'\r'` per line. -/
def rustLines (s : String) : List String :=
  let parts := splitOnNl s.toList
  let parts :=
    match parts.getLast? with
    | some [] => parts.dropLast
    | _ => parts
  parts.map (fun l => String.mk (if l.getLast? = some '\r' then l.dropLast else l))

/-- Index of the first occurrence of `pat` in the remaining haystack,
offset by `i` (helper for Rust `str::find`). -/
def findSubAux (pat : List Char) : List Char → Nat → Option Nat
  | [], i => if pat = [] then some i else none
  | l@(_ :: rest), i =>
    if pat.isPrefixOf l then some i else findSubAux pat rest (i + 1)

/-- Rust `str::find(pattern)` returning a character index. -/
def rustFind (s pat : String) : Option Nat :=
  findSubAux pat.toList s.toList 0

/-- Rust `str::contains(pattern)`. -/
def rustContains (s pat : String) : Bool :=
  (rustFind s pat).isSome

/-- Replace every occurrence of the non-empty pattern `pat` by `rep`,
scanning left to right without rescanning replacements (Rust
`str::replace` for a non-empty pattern).  `fuel` bounds the recursion; with
`fuel ≥` the haystack length the function agrees with the unbounded scan,
because every step consumes at least one haystack character. -/
def replaceGoFuel (pat rep : List Char) : Nat → List Char → List Char
  | _, [] => []
  | 0, l => l
  | fuel + 1, c :: rest =>
    if pat ≠ [] ∧ pat.isPrefixOf (c :: rest) then
      rep ++ replaceGoFuel pat rep fuel (rest.drop (pat.length - 1))
    else
      c :: replaceGoFuel pat rep fuel rest

/-- Rust `str::replace`.  For the empty pattern Rust inserts the
replacement at every character boundary. -/
def rustReplace (s pat rep : String) : String :=
  if pat = "" then
    String.mk (rep.toList ++ (s.toList.map (fun c => c :: rep.toList)).flatten)
  else
    String.mk (replaceGoFuel pat.toList rep.toList s.toList.length s.toList)

/-- Rust `str::trim` on the ASCII whitespace relevant here. -/
def rustTrim (s : String) : String :=
  String.mk (((s.toList.dropWhile Char.isWhitespace).reverse.dropWhile
      Char.isWhitespace).reverse)

/-- Split at each occurrence of the non-empty separator `sep` (Rust
`str::split(sep)`); `fuel ≥` haystack length makes the scan complete. -/
def splitOnSepFuel (sep : List Char) : Nat → List Char → List (List Char)
  | _, [] => [[]]
  | 0, l => [l]
  | fuel + 1, c :: rest =>
    if sep ≠ [] ∧ sep.isPrefixOf (c :: rest) then
      [] :: splitOnSepFuel sep fuel (rest.drop (sep.length - 1))
    else
      match splitOnSepFuel sep fuel rest with
      | [] => [[c]]
      | h :: t => (c :: h) :: t

/-- Rust `str::split` with a string separator, collected to a list. -/
def rustSplit (s sep : String) : List String :=
  (splitOnSepFuel sep.toList s.toList.length s.toList).map String.mk

/-- Index of the last occurrence of character `c` (Rust `str::rfind`). -/
def rfindCharIdx (c : Char) : List Char → Option Nat
  | [] => none
  | x :: rest =>
    match rfindCharIdx c rest with
    | some i => some (i + 1)
    | none => if x = c then some 0 else none

/-! ### Mutation strategies (`MutationStrategy` trait objects) -/

/-- Random draws and the clock reading consumed by
`BasicMutationStrategy::mutate`:  `doMutate` is the `rng.gen::<f64>() < 0.3`
draw, `targetLine` the `gen_range(0..lines.len())` draw (taken modulo the
line count), `kind` the `gen_range(0..5)` draw (taken modulo 5) and
`timestamp` the rendering of `chrono::Local::now()`. -/
structure MutOracle where
  doMutate : Bool
  targetLine : Nat
  kind : Nat
  timestamp : String
deriving DecidableEq

/-- The three `MutationStrategy` implementations of the source.  The
self-developed strategies carry their generated name. -/
inductive MutationStrategy where
  | BasicMutationStrategy
  | AdvancedMutationStrategy
  | SelfDevelopedMutationStrategy (name : String)
deriving DecidableEq

/-- `BasicMutationStrategy::mutate`: with the 30% draw, pick a random line
and a mutation kind among 5; only kind 0 (comment mutation) is implemented
and prefixes the chosen line by a timestamped comment via `String::replace`
(which replaces every occurrence of the line's text).  All other paths
return the input unchanged. -/
def basicMutate (o : MutOracle) (code : String) : String :=
  if o.doMutate then
    let lines := rustLines code
    if lines.length ≠ 0 then
      let target_line := o.targetLine % lines.length
      let tl := lines.getD target_line ""
      if o.kind % 5 = 0 then
        let comment := "// Evolutionär optimiert - Gen " ++ o.timestamp
        rustReplace code tl (comment ++ "\n" ++ tl)
      else code
    else code
  else code

/-- Dispatch of `MutationStrategy::mutate`.  `AdvancedMutationStrategy`
and `SelfDevelopedMutationStrategy` return the input unchanged in the
source (their bodies are placeholders). -/
def MutationStrategy.mutate (s : MutationStrategy) (o : MutOracle)
    (code : String) : String :=
  match s with
  | .BasicMutationStrategy => basicMutate o code
  | .AdvancedMutationStrategy => code
  | .SelfDevelopedMutationStrategy _ => code

/-! ### The managed file system -/

/-- One top-level file of a managed directory: path (file name), byte
length, last-modified time (`SystemTime` as a natural number), and its
text content (read by knowledge integration). -/
structure FileRec where
  path : String
  size : Nat
  mtime : Nat
  content : String
deriving DecidableEq

/-- The two managed flat directories. -/
structure Fs where
  knowledge : List FileRec
  cache : List FileRec
deriving DecidableEq

/-- Sum of the file sizes of one directory (what `calculate_disk_usage`
accumulates per directory). -/
def dirUsage (d : List FileRec) : Nat :=
  (d.map (fun f => f.size)).sum

/-! ### The core state (`EnhancedEvoliKern`) -/

/-- The modelled fields of `EnhancedEvoliKern`.  `module_genomes` is the
`HashMap` as an association list in insertion order.  Omitted fields are
listed in the file header. -/
structure EnhancedEvoliKern where
  primary_genome : String
  module_genomes : List (String × String)
  generation : Nat
  disk_usage : Nat
  internet_enabled : Bool
  mutation_strategies : List MutationStrategy
  evolution_backups : List (Nat × String)
deriving DecidableEq

/-- `EnhancedEvoliKern::new` on a successfully read own source
`primary_genome`: generation 0, the two basic strategies, empty backups
and modules, internet enabled. -/
def EnhancedEvoliKern.new (primary_genome : String) : EnhancedEvoliKern :=
  { primary_genome := primary_genome
    module_genomes := []
    generation := 0
    disk_usage := 0
    internet_enabled := true
    mutation_strategies :=
      [.BasicMutationStrategy, .AdvancedMutationStrategy]
    evolution_backups := [] }

/-! ### Backup, environment analysis, disk usage -/

/-- `create_backup`: push `(generation, primary_genome)` onto the backup
list, drop the oldest entry if the list now exceeds 10, then attempt the
physical backup-file write (`fs::write(...)?`), whose failure aborts with
an error after the in-memory list has already been updated. -/
def create_backup (k : EnhancedEvoliKern) (writeOk : Bool) :
    EnhancedEvoliKern × Except Unit Unit :=
  let backups := k.evolution_backups ++ [(k.generation, k.primary_genome)]
  let backups := if backups.length > 10 then backups.tail else backups
  ({ k with evolution_backups := backups },
   if writeOk then .ok () else .error ())

/-- `calculate_disk_usage`: sum of the top-level file sizes of the two
managed directories (both directories exist after construction). -/
def calculate_disk_usage (fs : Fs) : Nat :=
  dirUsage fs.knowledge + dirUsage fs.cache

/-- `analyze_environment`: store the recomputed disk usage; a failing
directory read (`calculate_disk_usage()?`) aborts the cycle. -/
def analyze_environment (k : EnhancedEvoliKern) (fs : Fs) (readOk : Bool) :
    EnhancedEvoliKern × Except Unit Unit :=
  if readOk then ({ k with disk_usage := calculate_disk_usage fs }, .ok ())
  else (k, .error ())

/-! ### Internet learning and knowledge extraction -/

/-- Outcome of the HTTP request in `learn_from_internet`: network error,
non-success status, body-read error, or a body. -/
inductive HttpResult where
  | netErr
  | httpErr
  | bodyErr
  | body (content : String)
deriving DecidableEq

/-- Oracle for `learn_from_internet`: the URL draw, the HTTP outcome, the
timestamp-derived file names and modification times of the files it may
create, and the success of its two fallible writes. -/
structure NetOracle where
  urlIndex : Nat
  response : HttpResult
  cacheStamp : String
  cacheMtime : Nat
  cacheWriteOk : Bool
  knowStamp : String
  knowMtime : Nat
  knowWriteOk : Bool
deriving DecidableEq

/-- The code blocks `extract_knowledge_from_content` collects: if the
content contains a Rust fence, split on the fence and, for every part with
a closing fence, keep the trimmed text before it when non-empty. -/
def extract_code_blocks (content : String) : List String :=
  if rustContains content "```rust" then
    (rustSplit content "```rust").filterMap (fun block =>
      match rustFind block "```" with
      | none => none
      | some endPos =>
        let code := String.mk (block.toList.take endPos)
        let t := rustTrim code
        if t = "" then none else some t)
  else []

/-- The text `extract_knowledge_from_content` writes to the knowledge file
(one `writeln!` of `"// Extrahiertes Code-Beispiel {}\n{}\n"` per block),
or `none` when no block was extracted and no file is created. -/
def extract_knowledge_file (content : String) : Option String :=
  let blocks := extract_code_blocks content
  if blocks.length ≠ 0 then
    some ((blocks.enum.map (fun p =>
      "// Extrahiertes Code-Beispiel " ++ toString (p.1 + 1) ++ "\n"
        ++ p.2 ++ "\n\n")).foldl (fun a b => a ++ b) "")
  else none

/-- `learn_from_internet`: on any request failure just log and continue;
on a body, write it to a new cache file (failure aborts), then extract
code blocks and, if any, write them to a new knowledge file (failure
aborts after the cache file exists). -/
def learn_from_internet (fs : Fs) (o : NetOracle) : Fs × Except Unit Unit :=
  match o.response with
  | .netErr => (fs, .ok ())
  | .httpErr => (fs, .ok ())
  | .bodyErr => (fs, .ok ())
  | .body content =>
    if o.cacheWriteOk then
      let fs := { fs with cache := fs.cache ++
        [⟨"evoli_cache_" ++ o.cacheStamp ++ ".html", content.length,
          o.cacheMtime, content⟩] }
      match extract_knowledge_file content with
      | none => (fs, .ok ())
      | some text =>
        if o.knowWriteOk then
          ({ fs with knowledge := fs.knowledge ++
            [⟨"evoli_knowledge_" ++ o.knowStamp ++ ".rs", text.length,
              o.knowMtime, text⟩] }, .ok ())
        else (fs, .error ())
    else (fs, .error ())

/-! ### Knowledge integration -/

/-- `Path::extension() == "rs"` for the flat file names used here: the
name ends in `".rs"` with at least one character before the dot. -/
def hasRsExtension (p : String) : Bool :=
  match p.toList.reverse with
  | 's' :: 'r' :: '.' :: _ :: _ => true
  | _ => false

/-- Oracle for `integrate_knowledge_into_code`: the directory-read and
file-read outcomes, the 30% draw, and the file-selection draw. -/
structure IntegOracle where
  readDirOk : Bool
  doIntegrate : Bool
  fileIndex : Nat
  readOk : Bool
deriving DecidableEq

/-- `integrate_knowledge_into_code`: with the 30% draw and at least one
`.rs` knowledge file, read a random one, take the substring from the first
`"fn "` to the first following `"\n\x7d\n"` inclusive, and insert it (with a
banner) before the last `'\x7d'` of the candidate. -/
def integrate_knowledge_into_code (knowledge : List FileRec) (code : String)
    (o : IntegOracle) : Except Unit String :=
  if o.readDirOk then
    let knowledge_files := knowledge.filter (fun f => hasRsExtension f.path)
    if knowledge_files.length ≠ 0 ∧ o.doIntegrate then
      let ke := knowledge_files.getD (o.fileIndex % knowledge_files.length)
        ⟨"", 0, 0, ""⟩
      if o.readOk then
        let kc := ke.content
        match rustFind kc "fn " with
        | none => .ok code
        | some func_start =>
          match rustFind (String.mk (kc.toList.drop func_start))
              "\n\x7d\n" with
          | none => .ok code
          | some func_end =>
            let function := String.mk
              ((kc.toList.drop func_start).take (func_end + 3))
            let ecl := code.toList
            let insert_point := (rfindCharIdx '\x7d' ecl).getD ecl.length
            .ok (String.mk (ecl.take insert_point
              ++ ("\n// Von Internet gelernt\n" ++ function ++ "\n").toList
              ++ ecl.drop insert_point))
      else .error ()
    else .ok code
  else .error ()

/-! ### Module synthesis -/

/-- The fixed module-type table of `try_create_new_module`. -/
def module_types : List String :=
  ["data_processor", "network_interface", "learning_system", "code_analyzer"]

/-- The boilerplate module body generated by `try_create_new_module`
(the source's format string with arguments
`module_name, module_type, module_type, module_name`). -/
def module_template (module_name module_type : String) : String :=
  "// Automatisch generiertes Modul: " ++ module_name ++ "\n"
    ++ "pub struct " ++ module_type ++ "Module \x7b\n"
    ++ "\tname: String,\n\tversion: f32,\n\x7d\n\n"
    ++ "impl " ++ module_type ++ "Module \x7b\n"
    ++ "\tpub fn new() -> Self \x7b\n\t\tSelf \x7b\n"
    ++ "\t\t\tname: \"" ++ module_name ++ "\".to_string(),\n"
    ++ "\t\t\tversion: 0.1\n\t\t\x7d\n\t\x7d\n\n"
    ++ "\tpub fn process(&self, data: &str) -> String \x7b\n"
    ++ "\t\tformat!(\"Processed by \x7b\x7d: \x7b\x7d\", self.name, data)\n"
    ++ "\t\x7d\n\x7d\n"

/-- Oracle for `try_create_new_module`: the 10% draw, the module-type
draw, and the module-file write outcome. -/
structure ModuleOracle where
  doCreate : Bool
  typeIndex : Nat
  writeOk : Bool
deriving DecidableEq

/-- `try_create_new_module`: with the 10% draw, derive a module name; when
that name is not yet in the module map, insert the templated body into the
map and then write the module file, whose failure aborts after the map was
already updated. -/
def try_create_new_module (k : EnhancedEvoliKern) (o : ModuleOracle) :
    EnhancedEvoliKern × Except Unit Unit :=
  if o.doCreate then
    let module_type := module_types.getD (o.typeIndex % module_types.length) ""
    let module_name := "evoli_module_" ++ module_type
    if k.module_genomes.any (fun p => p.1 = module_name) then (k, .ok ())
    else
      let module_code := module_template module_name module_type
      ({ k with module_genomes :=
          k.module_genomes ++ [(module_name, module_code)] },
       if o.writeOk then .ok () else .error ())
  else (k, .ok ())

/-! ### Strategy development -/

/-- `develop_new_strategies`: with the 5% draw and strictly fewer than 10
registered strategies, append a fresh self-developed strategy named after
the current generation.  Never fails, never removes a strategy. -/
def develop_new_strategies (k : EnhancedEvoliKern) (doDevelop : Bool) :
    EnhancedEvoliKern :=
  if doDevelop ∧ k.mutation_strategies.length < 10 then
    { k with mutation_strategies := k.mutation_strategies ++
        [.SelfDevelopedMutationStrategy
          ("EvolvdStrategy_" ++ toString k.generation)] }
  else k

/-! ### Storage governance -/

/-- Stable ascending insertion by `mtime` (equal keys keep their relative
enumeration order). -/
def insertSorted (f : FileRec) : List FileRec → List FileRec
  | [] => [f]
  | g :: rest =>
    if g.mtime ≤ f.mtime then g :: insertSorted f rest
    else f :: g :: rest

/-- The stable ascending-`mtime` sort performed by
`files.sort_by(|a, b| a.1.cmp(&b.1))`. -/
def sortByMtime (l : List FileRec) : List FileRec :=
  l.foldl (fun acc f => insertSorted f acc) []

/-- The deletion loop of `clean_directory`: walk the sorted file list,
stopping as soon as the running usage counter is at or below `target`;
for each visited file whose metadata is readable and whose removal
succeeds, subtract its size from the counter (saturating) and record the
file as removed. -/
def deleteLoop (target : Nat) (metaOk removeOk : String → Bool) :
    List FileRec → Nat → List FileRec
  | [], _ => []
  | f :: rest, current =>
    if current ≤ target then []
    else if metaOk f.path then
      if removeOk f.path then
        f :: deleteLoop target metaOk removeOk rest (current - f.size)
      else deleteLoop target metaOk removeOk rest current
    else deleteLoop target metaOk removeOk rest current

/-- `clean_directory dir current_usage`: nothing to do when the passed-in
usage is already at most the 50%-of-capacity target; otherwise scan the
directory (a failing `read_dir` aborts), keep the files whose metadata and
modification time are readable, sort them oldest-first and run the
deletion loop; the resulting directory is the original minus the removed
files. -/
def clean_directory (d : List FileRec) (current_usage : Nat) (scanOk : Bool)
    (metaOk removeOk : String → Bool) : Except Unit (List FileRec) :=
  let target_size := MAX_STORAGE_BYTES / 2
  if current_usage ≤ target_size then .ok d
  else if scanOk then
    let files := sortByMtime (d.filter (fun f => metaOk f.path))
    let removed := deleteLoop target_size metaOk removeOk files current_usage
    .ok (d.filter (fun f => ! removed.any (fun g => g.path == f.path)))
  else .error ()

/-- Oracle for `manage_storage`: outcomes of its three
`calculate_disk_usage()?` calls, of the two directory scans, and of the
per-file metadata reads and removals (keyed by file path). -/
structure StorageOracle where
  usageOk1 : Bool
  usageOk2 : Bool
  usageOk3 : Bool
  scanOkCache : Bool
  scanOkKnowledge : Bool
  metaOk : String → Bool
  removeOk : String → Bool

/-- The all-success storage oracle: every read, scan and removal works. -/
def allOkStorage : StorageOracle :=
  ⟨true, true, true, true, true, fun _ => true, fun _ => true⟩

/-- `manage_storage`: when the aggregate usage of the two managed
directories exceeds 80% of capacity, clean the retrieval cache against
that aggregate; then, only when the recomputed aggregate still exceeds
80%, clean the knowledge store against the new aggregate; the final
logging line re-reads the usage and can itself abort. -/
def manage_storage (fs : Fs) (o : StorageOracle) : Fs × Except Unit Unit :=
  if o.usageOk1 then
    let current_usage := calculate_disk_usage fs
    if current_usage > MAX_STORAGE_BYTES * 8 / 10 then
      match clean_directory fs.cache current_usage o.scanOkCache
          o.metaOk o.removeOk with
      | .error e => (fs, .error e)
      | .ok cache' =>
        let fs := { fs with cache := cache' }
        if o.usageOk2 then
          let new_usage := calculate_disk_usage fs
          if new_usage > MAX_STORAGE_BYTES * 8 / 10 then
            match clean_directory fs.knowledge new_usage o.scanOkKnowledge
                o.metaOk o.removeOk with
            | .error e => (fs, .error e)
            | .ok knowledge' =>
              let fs := { fs with knowledge := knowledge' }
              if o.usageOk3 then (fs, .ok ()) else (fs, .error ())
          else if o.usageOk3 then (fs, .ok ()) else (fs, .error ())
        else (fs, .error ())
    else (fs, .ok ())
  else (fs, .error ())

/-! ### The build-validate-integrate pipeline (`evolve`) -/

/-- What the external world saw during one `evolve` run: whether the
staging file was written, whether the compiler invocation was attempted,
and whether `try_create_new_module` was called. -/
structure Effects where
  stagingWritten : Bool
  compilerInvoked : Bool
  moduleSynthCalled : Bool
deriving DecidableEq

/-- Oracle for `evolve`: the strategy draw, the mutation draws, the
staging-file write outcome, the compiler outcome (`none`: the process
could not be started; `some b`: it ran and `b` is exit-status success),
and the oracles of the two nested steps. -/
structure EvolveOracle where
  strategyIndex : Nat
  mutOracle : MutOracle
  stagingWriteOk : Bool
  compileResult : Option Bool
  integ : IntegOracle
  module : ModuleOracle
deriving DecidableEq

/-- The mutated candidate produced at the top of `evolve`: the drawn
strategy applied to the primary genome.  (`gen_range` on an empty registry
would panic in Rust; the registry always holds at least the two initial
strategies, and the default here is never reached in modelled runs.) -/
def evolveMutated (k : EnhancedEvoliKern) (o : EvolveOracle) : String :=
  (k.mutation_strategies.getD
    (o.strategyIndex % k.mutation_strategies.length)
    .AdvancedMutationStrategy).mutate o.mutOracle k.primary_genome

/-- `evolve`: apply the drawn mutation; when the candidate equals the
primary genome, report "no change" and stop successfully; otherwise write
the staging file (failure aborts) and invoke the compiler.  A spawn error
or a failing exit status leaves the genome untouched and still succeeds.
On compiler success, knowledge integration produces the enhanced genome
which replaces the primary genome, and then module synthesis runs. -/
def evolve (k : EnhancedEvoliKern) (knowledge : List FileRec)
    (o : EvolveOracle) : EnhancedEvoliKern × Except Unit Effects :=
  let mutated_genome := evolveMutated k o
  if mutated_genome ≠ k.primary_genome then
    if o.stagingWriteOk then
      match o.compileResult with
      | none => (k, .ok ⟨true, true, false⟩)
      | some false => (k, .ok ⟨true, true, false⟩)
      | some true =>
        match integrate_knowledge_into_code knowledge mutated_genome
            o.integ with
        | .error e => (k, .error e)
        | .ok enhanced_genome =>
          let p := try_create_new_module
            { k with primary_genome := enhanced_genome } o.module
          (p.1, match p.2 with
                | .error e => .error e
                | .ok _ => .ok ⟨true, true, true⟩)
    else (k, .error ())
  else (k, .ok ⟨false, false, false⟩)

/-! ### The full evolution cycle -/

/-- The shared state one cycle operates on: the core and the managed
directories. -/
structure World where
  kern : EnhancedEvoliKern
  fs : Fs
deriving DecidableEq

/-- All oracles consumed by one `run_evolution_cycle`. -/
structure CycleOracle where
  backupWriteOk : Bool
  envReadOk : Bool
  net : NetOracle
  ev : EvolveOracle
  doDevelop : Bool
  sto : StorageOracle

/-- `run_evolution_cycle`: backup, environment analysis, internet
learning (when enabled), evolution, strategy development, storage
governance, and finally `generation += 1`.  Any failing step aborts the
cycle with an error, leaving the increments of later steps undone. -/
def run_evolution_cycle (w : World) (o : CycleOracle) :
    World × Except Unit Unit :=
  let p0 := create_backup w.kern o.backupWriteOk
  match p0.2 with
  | .error e => (⟨p0.1, w.fs⟩, .error e)
  | .ok _ =>
    let p1 := analyze_environment p0.1 w.fs o.envReadOk
    match p1.2 with
    | .error e => (⟨p1.1, w.fs⟩, .error e)
    | .ok _ =>
      let p2 := if p1.1.internet_enabled then learn_from_internet w.fs o.net
                else (w.fs, .ok ())
      match p2.2 with
      | .error e => (⟨p1.1, p2.1⟩, .error e)
      | .ok _ =>
        let p3 := evolve p1.1 p2.1.knowledge o.ev
        match p3.2 with
        | .error e => (⟨p3.1, p2.1⟩, .error e)
        | .ok _ =>
          let k4 := develop_new_strategies p3.1 o.doDevelop
          let p5 := manage_storage p2.1 o.sto
          match p5.2 with
          | .error e => (⟨k4, p5.1⟩, .error e)
          | .ok _ =>
            (⟨{ k4 with generation := k4.generation + 1 }, p5.1⟩, .ok ())

/-- Iterate `run_evolution_cycle`, keeping only the state (the scheduler
catches and logs a cycle's error and keeps going). -/
def runCycles (w : World) (os : List CycleOracle) : World :=
  os.foldl (fun w o => (run_evolution_cycle w o).1) w

/-! ### Concrete instances used to exercise the definitions -/

/-- A cycle oracle on which every fallible step succeeds: the network
request fails benignly, the drawn strategy is the identity-like
`AdvancedMutationStrategy`, no new strategy or module is drawn, and
storage stays under the threshold. -/
def allSuccessCycleOracle : CycleOracle :=
  { backupWriteOk := true
    envReadOk := true
    net := ⟨0, .netErr, "", 0, true, "", 0, true⟩
    ev := ⟨1, ⟨false, 0, 0, ""⟩, true, some false,
           ⟨true, false, 0, true⟩, ⟨false, 0, true⟩⟩
    doDevelop := false
    sto := allOkStorage }

/-- A freshly constructed world over empty managed directories. -/
def initialWorldExample : World :=
  ⟨EnhancedEvoliKern.new "g", ⟨[], []⟩⟩

/-- An evolve oracle drawing `BasicMutationStrategy` with the comment
mutation (so the candidate differs from the genome), a succeeding staging
write and a compiler that runs but exits with failure. -/
def compileFailOracle : EvolveOracle :=
  ⟨0, ⟨true, 0, 0, "T"⟩, true, some false, ⟨true, false, 0, true⟩,
   ⟨false, 0, true⟩⟩

/-- An evolve oracle drawing `BasicMutationStrategy` with the comment
mutation and a fully successful pipeline (compiler succeeds, no knowledge
integration draw, no module-creation draw). -/
def compileSuccessOracle : EvolveOracle :=
  ⟨0, ⟨true, 0, 0, "T"⟩, true, some true, ⟨true, false, 0, true⟩,
   ⟨false, 0, true⟩⟩

/-- An evolve oracle drawing the identity-like
`AdvancedMutationStrategy` (so mutation produces no change) while the
module-creation draw would fire. -/
def noChangeOracle : EvolveOracle :=
  ⟨1, ⟨false, 0, 0, ""⟩, true, some true, ⟨true, false, 0, true⟩,
   ⟨true, 0, true⟩⟩

/-- Managed directories putting aggregate usage above the 80% threshold
with a large knowledge store and a smaller retrieval cache. -/
def overfullFsExample : Fs :=
  ⟨[⟨"k1", 700000000000, 0, ""⟩], [⟨"c1", 200000000000, 1, ""⟩]⟩

/-- Three files with pairwise distinct modification times whose oldest
member alone pushes the usage over the cleanup target. -/
def threeFilesExample : List FileRec :=
  [⟨"b", 5, 2, ""⟩, ⟨"a", 600000000000, 1, ""⟩, ⟨"c", 5, 3, ""⟩]

/-- The all-success cycle oracle with a failing backup-file write. -/
def backupFailCycleOracle : CycleOracle :=
  { allSuccessCycleOracle with backupWriteOk := false }

/-- A core whose in-memory backup list already holds 10 entries. -/
def fullBackupsKernExample : EnhancedEvoliKern :=
  { EnhancedEvoliKern.new "g" with
      evolution_backups := (List.range 10).map (fun i => (i, "b")) }

/-! ## Helper lemmas: which fields each step can touch -/

lemma create_backup_fst_generation (k : EnhancedEvoliKern) (b : Bool) :
    ((create_backup k b).1).generation = k.generation := rfl

lemma create_backup_fst_backups (k : EnhancedEvoliKern) (b : Bool) :
    ((create_backup k b).1).evolution_backups =
      (if (k.evolution_backups ++
            [(k.generation, k.primary_genome)]).length > 10 then
        (k.evolution_backups ++ [(k.generation, k.primary_genome)]).tail
       else k.evolution_backups ++ [(k.generation, k.primary_genome)]) :=
  rfl

lemma create_backup_fst_strategies (k : EnhancedEvoliKern) (b : Bool) :
    ((create_backup k b).1).mutation_strategies = k.mutation_strategies :=
  rfl

lemma analyze_environment_fst (k : EnhancedEvoliKern) (fs : Fs) (r : Bool) :
    (analyze_environment k fs r).1 =
      { k with disk_usage :=
          if r then calculate_disk_usage fs else k.disk_usage } := by
  cases r <;> rfl

lemma analyze_environment_fst_generation (k : EnhancedEvoliKern) (fs : Fs)
    (r : Bool) :
    ((analyze_environment k fs r).1).generation = k.generation := by
  cases r <;> rfl

lemma analyze_environment_fst_backups (k : EnhancedEvoliKern) (fs : Fs)
    (r : Bool) :
    ((analyze_environment k fs r).1).evolution_backups =
      k.evolution_backups := by
  cases r <;> rfl

lemma analyze_environment_fst_strategies (k : EnhancedEvoliKern) (fs : Fs)
    (r : Bool) :
    ((analyze_environment k fs r).1).mutation_strategies =
      k.mutation_strategies := by
  cases r <;> rfl

lemma analyze_environment_fst_internet (k : EnhancedEvoliKern) (fs : Fs)
    (r : Bool) :
    ((analyze_environment k fs r).1).internet_enabled =
      k.internet_enabled := by
  cases r <;> rfl

lemma try_create_new_module_fst_generation (k : EnhancedEvoliKern)
    (o : ModuleOracle) :
    ((try_create_new_module k o).1).generation = k.generation := by
  simp only [try_create_new_module]
  repeat' split
  all_goals rfl

lemma try_create_new_module_fst_backups (k : EnhancedEvoliKern)
    (o : ModuleOracle) :
    ((try_create_new_module k o).1).evolution_backups =
      k.evolution_backups := by
  simp only [try_create_new_module]
  repeat' split
  all_goals rfl

lemma try_create_new_module_fst_strategies (k : EnhancedEvoliKern)
    (o : ModuleOracle) :
    ((try_create_new_module k o).1).mutation_strategies =
      k.mutation_strategies := by
  simp only [try_create_new_module]
  repeat' split
  all_goals rfl

lemma evolve_fst_generation (k : EnhancedEvoliKern) (kn : List FileRec)
    (o : EvolveOracle) :
    ((evolve k kn o).1).generation = k.generation := by
  simp only [evolve]
  repeat' split
  all_goals simp [try_create_new_module_fst_generation]

lemma evolve_fst_backups (k : EnhancedEvoliKern) (kn : List FileRec)
    (o : EvolveOracle) :
    ((evolve k kn o).1).evolution_backups = k.evolution_backups := by
  simp only [evolve]
  repeat' split
  all_goals simp [try_create_new_module_fst_backups]

lemma evolve_fst_strategies (k : EnhancedEvoliKern) (kn : List FileRec)
    (o : EvolveOracle) :
    ((evolve k kn o).1).mutation_strategies = k.mutation_strategies := by
  simp only [evolve]
  repeat' split
  all_goals simp [try_create_new_module_fst_strategies]

lemma develop_new_strategies_generation (k : EnhancedEvoliKern) (d : Bool) :
    (develop_new_strategies k d).generation = k.generation := by
  unfold develop_new_strategies
  split <;> rfl

lemma develop_new_strategies_backups (k : EnhancedEvoliKern) (d : Bool) :
    (develop_new_strategies k d).evolution_backups =
      k.evolution_backups := by
  unfold develop_new_strategies
  split <;> rfl

lemma develop_new_strategies_cases (k : EnhancedEvoliKern) (d : Bool) :
    (develop_new_strategies k d).mutation_strategies =
        k.mutation_strategies
      ∨ (k.mutation_strategies.length < 10 ∧
        (develop_new_strategies k d).mutation_strategies =
          k.mutation_strategies ++
            [.SelfDevelopedMutationStrategy
              ("EvolvdStrategy_" ++ toString k.generation)]) := by
  unfold develop_new_strategies
  split
  · next h => exact Or.inr ⟨h.2, rfl⟩
  · exact Or.inl rfl

/-- `develop_new_strategies_cases` restated against any description `s0`
of the incoming registry, for use inside larger goals. -/
lemma develop_cases_general (k : EnhancedEvoliKern) (d : Bool)
    (s0 : List MutationStrategy) (hk : k.mutation_strategies = s0) :
    (develop_new_strategies k d).mutation_strategies = s0
      ∨ (s0.length < 10 ∧
        ∃ s, (develop_new_strategies k d).mutation_strategies =
          s0 ++ [s]) := by
  subst hk
  rcases develop_new_strategies_cases k d with h | ⟨h1, h2⟩
  · exact Or.inl h
  · exact Or.inr ⟨h1, _, h2⟩

/-! ## Helper lemmas: the cycle's effect on the core fields -/

/-- The generation after a successful cycle: incremented by one. -/
lemma run_cycle_generation_ok (w : World) (o : CycleOracle)
    (h : (run_evolution_cycle w o).2 = .ok ()) :
    ((run_evolution_cycle w o).1).kern.generation =
      w.kern.generation + 1 := by
  simp only [run_evolution_cycle] at h ⊢
  repeat' split at h
  all_goals
    simp_all [create_backup_fst_generation,
      analyze_environment_fst_generation, evolve_fst_generation,
      develop_new_strategies_generation]

/-- The generation after an aborted cycle: untouched. -/
lemma run_cycle_generation_err (w : World) (o : CycleOracle)
    (h : (run_evolution_cycle w o).2 = .error ()) :
    ((run_evolution_cycle w o).1).kern.generation = w.kern.generation := by
  simp only [run_evolution_cycle] at h ⊢
  repeat' split at h
  all_goals
    simp_all [create_backup_fst_generation,
      analyze_environment_fst_generation, evolve_fst_generation,
      develop_new_strategies_generation]

/-- The backup list after one cycle, for every outcome, equals the one
produced by the `create_backup` step: no later step touches it. -/
lemma run_cycle_backups (w : World) (o : CycleOracle) :
    ((run_evolution_cycle w o).1).kern.evolution_backups =
      ((create_backup w.kern o.backupWriteOk).1).evolution_backups := by
  simp only [run_evolution_cycle]
  repeat' split
  all_goals
    simp only [analyze_environment_fst_backups, evolve_fst_backups,
      develop_new_strategies_backups]

/-- The strategy registry after one cycle: unchanged, or extended by one
strategy when it held fewer than 10. -/
lemma run_cycle_strategies (w : World) (o : CycleOracle) :
    ((run_evolution_cycle w o).1).kern.mutation_strategies =
        w.kern.mutation_strategies
      ∨ (w.kern.mutation_strategies.length < 10 ∧
        ∃ s, ((run_evolution_cycle w o).1).kern.mutation_strategies =
          w.kern.mutation_strategies ++ [s]) := by
  simp only [run_evolution_cycle]
  repeat' split
  all_goals
    first
      | exact develop_cases_general _ _ _ (by
          simp only [create_backup_fst_strategies,
            analyze_environment_fst_strategies, evolve_fst_strategies])
      | exact Or.inl (by
          simp only [create_backup_fst_strategies,
            analyze_environment_fst_strategies, evolve_fst_strategies])

/-! ## Helper lemmas: sorting and the deletion loop -/

lemma dirUsage_cons (f : FileRec) (l : List FileRec) :
    dirUsage (f :: l) = f.size + dirUsage l := by
  simp [dirUsage]

lemma dirUsage_append (l1 l2 : List FileRec) :
    dirUsage (l1 ++ l2) = dirUsage l1 + dirUsage l2 := by
  simp [dirUsage]

lemma dirUsage_perm {l1 l2 : List FileRec} (h : l1.Perm l2) :
    dirUsage l1 = dirUsage l2 :=
  (h.map _).sum_eq

/-- The two parts of a filter partition a directory's usage. -/
lemma dirUsage_filter_not_add (p : FileRec → Bool) (l : List FileRec) :
    dirUsage (l.filter (fun f => ! p f)) + dirUsage (l.filter p) =
      dirUsage l := by
  induction l with
  | nil => rfl
  | cons f rest ih =>
    cases hpf : p f <;>
      simp [List.filter_cons, hpf, dirUsage_cons] <;> omega

lemma insertSorted_perm (f : FileRec) (l : List FileRec) :
    (insertSorted f l).Perm (f :: l) := by
  induction l with
  | nil => exact List.Perm.refl _
  | cons g rest ih =>
    unfold insertSorted
    split
    · exact (ih.cons g).trans (List.Perm.swap f g rest)
    · exact List.Perm.refl _

lemma sortByMtime_perm_aux (l : List FileRec) :
    ∀ acc, ((l.foldl (fun acc f => insertSorted f acc) acc)).Perm
      (acc ++ l) := by
  induction l with
  | nil => intro acc; simp
  | cons x xs ih =>
    intro acc
    simp only [List.foldl_cons]
    have h1 := ih (insertSorted x acc)
    have h2 : ((insertSorted x acc) ++ xs).Perm ((x :: acc) ++ xs) :=
      (insertSorted_perm x acc).append_right xs
    have h3 : ((x :: acc) ++ xs).Perm (acc ++ x :: xs) := by
      simpa using List.perm_middle.symm
    exact (h1.trans h2).trans h3

/-- The stable sort is a permutation of its input. -/
lemma sortByMtime_perm (l : List FileRec) : (sortByMtime l).Perm l := by
  simpa using sortByMtime_perm_aux l []

lemma insertSorted_pairwise (f : FileRec) {l : List FileRec}
    (h : l.Pairwise (fun a b => a.mtime ≤ b.mtime)) :
    (insertSorted f l).Pairwise (fun a b => a.mtime ≤ b.mtime) := by
  induction l with
  | nil => simp [insertSorted]
  | cons g rest ih =>
    rcases List.pairwise_cons.mp h with ⟨hg, hrest⟩
    unfold insertSorted
    split
    · next hle =>
      refine List.pairwise_cons.mpr ⟨?_, ih hrest⟩
      intro x hx
      rcases List.mem_cons.mp
          ((insertSorted_perm f rest).mem_iff.mp hx) with hx | hx
      · subst hx; exact hle
      · exact hg x hx
    · next hgt =>
      refine List.pairwise_cons.mpr ⟨?_, h⟩
      intro x hx
      rcases List.mem_cons.mp hx with hx | hx
      · subst hx; omega
      · have := hg x hx; omega

/-- The stable sort is ascending in `mtime`. -/
lemma sortByMtime_pairwise (l : List FileRec) :
    (sortByMtime l).Pairwise (fun a b => a.mtime ≤ b.mtime) := by
  have main : ∀ (l acc : List FileRec),
      acc.Pairwise (fun a b => a.mtime ≤ b.mtime) →
      ((l.foldl (fun acc f => insertSorted f acc) acc)).Pairwise
        (fun a b => a.mtime ≤ b.mtime) := by
    intro l
    induction l with
    | nil => intro acc h; exact h
    | cons x xs ih =>
      intro acc h
      simp only [List.foldl_cons]
      exact ih _ (insertSorted_pairwise x h)
  exact main l [] (List.Pairwise.nil)

/-- With every metadata read and removal succeeding, the deletion loop
removes an initial segment of the (sorted) file list. -/
lemma deleteLoop_take (t : Nat) (l : List FileRec) (u : Nat) :
    ∃ m, deleteLoop t (fun _ => true) (fun _ => true) l u = l.take m := by
  induction l generalizing u with
  | nil => exact ⟨0, rfl⟩
  | cons f rest ih =>
    simp only [deleteLoop]
    split
    · exact ⟨0, rfl⟩
    · obtain ⟨m, hm⟩ := ih (u - f.size)
      exact ⟨m + 1, by simp [hm]⟩

/-- With every metadata read and removal succeeding, the deletion loop
either brings the running usage counter to the target or exhausts the
list. -/
lemma deleteLoop_spec (t : Nat) (l : List FileRec) (u : Nat) :
    u - dirUsage (deleteLoop t (fun _ => true) (fun _ => true) l u) ≤ t
      ∨ deleteLoop t (fun _ => true) (fun _ => true) l u = l := by
  induction l generalizing u with
  | nil => exact Or.inr rfl
  | cons f rest ih =>
    simp only [deleteLoop]
    split
    · next hle => left; simpa [dirUsage] using hle
    · next hgt =>
      rcases ih (u - f.size) with hA | hB
      · left
        simp only [if_true, dirUsage_cons]
        omega
      · right
        simp only [if_true, hB]

/-- A filter that keeps the whole prefix splits along `take`/`drop`. -/
lemma filter_take_append (q : FileRec → Bool) (l : List FileRec) (m : Nat)
    (hq : (l.take m).filter q = l.take m) :
    l.filter q = l.take m ++ (l.drop m).filter q := by
  conv_lhs => rw [← List.take_append_drop m l]
  rw [List.filter_append, hq]

/-- With a succeeding scan and all-succeeding metadata reads and
removals, `clean_directory` leaves a directory that is either within the
50%-of-capacity target or empty, whenever the passed-in usage counter is
an upper bound of the directory's own usage (in the source it is the
aggregate usage of both directories). -/
lemma clean_directory_allOk (d : List FileRec) (u : Nat)
    (hu : dirUsage d ≤ u) :
    ∃ d', clean_directory d u true (fun _ => true) (fun _ => true) = .ok d'
      ∧ (dirUsage d' ≤ MAX_STORAGE_BYTES / 2 ∨ d' = []) := by
  by_cases h : u ≤ MAX_STORAGE_BYTES / 2
  · exact ⟨d, by simp [clean_directory, h], Or.inl (le_trans hu h)⟩
  · have hcl : clean_directory d u true (fun _ => true) (fun _ => true) =
        .ok (d.filter (fun f =>
          ! (deleteLoop (MAX_STORAGE_BYTES / 2) (fun _ => true)
              (fun _ => true) (sortByMtime d) u).any
            (fun g => g.path == f.path))) := by
      simp [clean_directory, h]
    refine ⟨_, hcl, ?_⟩
    rcases deleteLoop_spec (MAX_STORAGE_BYTES / 2) (sortByMtime d) u
      with hA | hB
    · left
      obtain ⟨m, hm⟩ :=
        deleteLoop_take (MAX_STORAGE_BYTES / 2) (sortByMtime d) u
      have hpart := dirUsage_filter_not_add
        (fun f => (deleteLoop (MAX_STORAGE_BYTES / 2) (fun _ => true)
          (fun _ => true) (sortByMtime d) u).any
            (fun g => g.path == f.path)) d
      simp only [] at hpart
      have hperm : (d.filter (fun f =>
          (deleteLoop (MAX_STORAGE_BYTES / 2) (fun _ => true)
            (fun _ => true) (sortByMtime d) u).any
              (fun g => g.path == f.path))).Perm
          ((sortByMtime d).filter (fun f =>
            (deleteLoop (MAX_STORAGE_BYTES / 2) (fun _ => true)
              (fun _ => true) (sortByMtime d) u).any
                (fun g => g.path == f.path))) :=
        ((sortByMtime_perm d).symm.filter _)
      have htake : ((sortByMtime d).take m).filter (fun f =>
          (deleteLoop (MAX_STORAGE_BYTES / 2) (fun _ => true)
            (fun _ => true) (sortByMtime d) u).any
              (fun g => g.path == f.path)) = (sortByMtime d).take m := by
        apply List.filter_eq_self.mpr
        intro a ha
        simp only [List.any_eq_true]
        exact ⟨a, by rw [hm]; exact ha, by simp⟩
      have hfp : (sortByMtime d).filter (fun f =>
          (deleteLoop (MAX_STORAGE_BYTES / 2) (fun _ => true)
            (fun _ => true) (sortByMtime d) u).any
              (fun g => g.path == f.path)) =
          (deleteLoop (MAX_STORAGE_BYTES / 2) (fun _ => true)
            (fun _ => true) (sortByMtime d) u) ++
          (((sortByMtime d).drop m).filter (fun f =>
            (deleteLoop (MAX_STORAGE_BYTES / 2) (fun _ => true)
              (fun _ => true) (sortByMtime d) u).any
                (fun g => g.path == f.path))) := by
        rw [filter_take_append _ _ m htake, ← hm]
      have hle : dirUsage (deleteLoop (MAX_STORAGE_BYTES / 2)
          (fun _ => true) (fun _ => true) (sortByMtime d) u) ≤
          dirUsage (d.filter (fun f =>
            (deleteLoop (MAX_STORAGE_BYTES / 2) (fun _ => true)
              (fun _ => true) (sortByMtime d) u).any
                (fun g => g.path == f.path))) := by
        rw [dirUsage_perm hperm, hfp, dirUsage_append]
        omega
      omega
    · right
      rw [hB]
      apply List.filter_eq_nil_iff.mpr
      intro a ha
      have hmem : (sortByMtime d).any (fun g => g.path == a.path) = true :=
        List.any_eq_true.mpr ⟨a, (sortByMtime_perm d).mem_iff.mpr ha, by simp⟩
      simp [hmem]

/-! ## Claim theorems -/

/-- Claim C1: every completed (Ok) evolution cycle increments the
generation counter by exactly one, independent of the mutation and
compilation outcome (the oracle is universally quantified); an aborted
cycle leaves it untouched, and no cycle ever decreases it. -/
theorem claim_generation_increment (w : World) (o : CycleOracle) :
    ((run_evolution_cycle w o).2 = .ok () →
      ((run_evolution_cycle w o).1).kern.generation =
        w.kern.generation + 1)
    ∧ ((run_evolution_cycle w o).2 = .error () →
      ((run_evolution_cycle w o).1).kern.generation = w.kern.generation)
    ∧ w.kern.generation ≤
      ((run_evolution_cycle w o).1).kern.generation := by
  refine ⟨run_cycle_generation_ok w o, run_cycle_generation_err w o, ?_⟩
  cases hr : (run_evolution_cycle w o).2 with
  | error e =>
    cases e
    rw [run_cycle_generation_err w o hr]
  | ok v =>
    cases v
    rw [run_cycle_generation_ok w o hr]
    omega

/-- Witness for C1: a concrete successful cycle from generation 0 ends at
generation 1. -/
theorem claim_generation_increment_witness :
    (run_evolution_cycle initialWorldExample allSuccessCycleOracle).2 =
      .ok ()
    ∧ ((run_evolution_cycle initialWorldExample
        allSuccessCycleOracle).1).kern.generation = 1 :=
  ⟨rfl, (claim_generation_increment initialWorldExample
    allSuccessCycleOracle).1 rfl⟩

/-- Claim C2: when the mutated candidate differs from the primary genome,
the staging write succeeds and the compiler either cannot be started
(`compileResult = none`) or exits with failure (`some false`), `evolve`
returns the state unchanged — the primary genome is bit-identical — and
reports success. -/
theorem claim_compile_failure_preserves_genome (k : EnhancedEvoliKern)
    (knowledge : List FileRec) (o : EvolveOracle)
    (hne : evolveMutated k o ≠ k.primary_genome)
    (hw : o.stagingWriteOk = true)
    (hc : o.compileResult = none ∨ o.compileResult = some false) :
    evolve k knowledge o = (k, .ok ⟨true, true, false⟩) := by
  rcases hc with hc | hc <;> simp [evolve, hne, hw, hc]

/-- Witness for C2: a concrete changed candidate with a failing compiler
leaves the genome untouched and the step succeeds. -/
theorem claim_compile_failure_preserves_genome_witness :
    evolveMutated (EnhancedEvoliKern.new "x") compileFailOracle ≠
      (EnhancedEvoliKern.new "x").primary_genome
    ∧ evolve (EnhancedEvoliKern.new "x") [] compileFailOracle =
      (EnhancedEvoliKern.new "x", .ok ⟨true, true, false⟩) :=
  ⟨by decide, claim_compile_failure_preserves_genome _ [] _ (by decide)
    rfl (Or.inr rfl)⟩

/-- Claim C3: when the chosen strategy returns a candidate byte-identical
to the primary genome, `evolve` succeeds with the state unchanged, no
staging write, and no compiler invocation. -/
theorem claim_no_change_short_circuit (k : EnhancedEvoliKern)
    (knowledge : List FileRec) (o : EvolveOracle)
    (h : evolveMutated k o = k.primary_genome) :
    evolve k knowledge o = (k, .ok ⟨false, false, false⟩) := by
  simp [evolve, h]

/-- Witness for C3: the identity-like strategy on a concrete genome takes
the no-change path with no staging write and no compiler invocation. -/
theorem claim_no_change_short_circuit_witness :
    evolveMutated (EnhancedEvoliKern.new "g") noChangeOracle =
      (EnhancedEvoliKern.new "g").primary_genome
    ∧ evolve (EnhancedEvoliKern.new "g") [] noChangeOracle =
      (EnhancedEvoliKern.new "g", .ok ⟨false, false, false⟩) :=
  ⟨rfl, claim_no_change_short_circuit _ [] _ rfl⟩

/-- Counterexample to C4: a pipeline execution that completes (here: the
mutation produced no change, and the module-creation draw would even have
fired) in which `try_create_new_module` is not called — module synthesis
is not attempted regardless of outcome. -/
theorem claim_module_synthesis_counterexample :
    ¬ (∀ (k : EnhancedEvoliKern) (knowledge : List FileRec)
        (o : EvolveOracle) (eff : Effects),
        (evolve k knowledge o).2 = .ok eff →
        eff.moduleSynthCalled = true) := by
  intro hall
  have h := hall (EnhancedEvoliKern.new "g") [] noChangeOracle
    ⟨false, false, false⟩ rfl
  simp at h

/-- Claim C4 as amended: module synthesis is attempted exactly on the
compiler-success branch — in a completed `evolve`, `try_create_new_module`
was called if and only if the mutation changed the genome and the compiler
ran and succeeded; on the no-change and compile-failure paths it is not
attempted. -/
theorem claim_module_synthesis_amended (k : EnhancedEvoliKern)
    (knowledge : List FileRec) (o : EvolveOracle) (eff : Effects)
    (h : (evolve k knowledge o).2 = .ok eff) :
    eff.moduleSynthCalled = true ↔
      (evolveMutated k o ≠ k.primary_genome ∧
        o.compileResult = some true) := by
  by_cases hne : evolveMutated k o = k.primary_genome
  · simp only [evolve, hne] at h
    simp at h
    subst h
    simp [hne]
  · cases hsw : o.stagingWriteOk with
    | false => simp [evolve, hne, hsw] at h
    | true =>
      cases hcr : o.compileResult with
      | none =>
        simp [evolve, hne, hsw, hcr] at h
        subst h
        simp [hcr]
      | some b =>
        cases b with
        | false =>
          simp [evolve, hne, hsw, hcr] at h
          subst h
          simp [hcr]
        | true =>
          cases hint : integrate_knowledge_into_code knowledge
              (evolveMutated k o) o.integ with
          | error e => simp [evolve, hne, hsw, hcr, hint] at h
          | ok g =>
            cases hmod : (try_create_new_module
                { k with primary_genome := g } o.module).2 with
            | error e => simp [evolve, hne, hsw, hcr, hint, hmod] at h
            | ok u =>
              simp [evolve, hne, hsw, hcr, hint, hmod] at h
              subst h
              simp [hne, hcr]

/-- Witness for the amended C4: a concrete compiler-success run in which
module synthesis is attempted. -/
theorem claim_module_synthesis_amended_witness :
    (evolve (EnhancedEvoliKern.new "x") [] compileSuccessOracle).2 =
      .ok ⟨true, true, true⟩
    ∧ ((⟨true, true, true⟩ : Effects).moduleSynthCalled = true ↔
      (evolveMutated (EnhancedEvoliKern.new "x") compileSuccessOracle ≠
          (EnhancedEvoliKern.new "x").primary_genome ∧
        compileSuccessOracle.compileResult = some true)) :=
  ⟨rfl, claim_module_synthesis_amended _ [] _ _ rfl⟩

/-- Counterexample to C5: a governance pass starting above the 80%
threshold (900 GB of 1 TiB) that completes successfully yet leaves the
knowledge store at 700 GB — above the 50% target — and non-empty: after
emptying the cache the recomputed usage is below the 80% threshold, so the
knowledge store is never cleaned. -/
theorem claim_storage_target_counterexample :
    calculate_disk_usage overfullFsExample > MAX_STORAGE_BYTES * 8 / 10
    ∧ (manage_storage overfullFsExample allOkStorage).2 = .ok ()
    ∧ ¬ (dirUsage
          (manage_storage overfullFsExample allOkStorage).1.knowledge ≤
            MAX_STORAGE_BYTES / 2
        ∨ (manage_storage overfullFsExample allOkStorage).1.knowledge =
            []) :=
  ⟨by decide, rfl, by decide⟩

/-- Claim C5 as amended: in a governance pass starting above the 80%
threshold with all reads and removals succeeding, the retrieval cache ends
at most at the 50% target or empty; the knowledge store is cleaned — and
then also ends at most at the 50% target or empty — only when the
recomputed aggregate usage after the cache cleaning still exceeds the 80%
threshold, and is left untouched otherwise. -/
theorem claim_storage_target_amended (fs : Fs)
    (hbig : calculate_disk_usage fs > MAX_STORAGE_BYTES * 8 / 10) :
    (manage_storage fs allOkStorage).2 = .ok ()
    ∧ (dirUsage (manage_storage fs allOkStorage).1.cache ≤
          MAX_STORAGE_BYTES / 2
        ∨ (manage_storage fs allOkStorage).1.cache = [])
    ∧ (calculate_disk_usage
          ⟨fs.knowledge, (manage_storage fs allOkStorage).1.cache⟩ >
            MAX_STORAGE_BYTES * 8 / 10 →
        (dirUsage (manage_storage fs allOkStorage).1.knowledge ≤
            MAX_STORAGE_BYTES / 2
          ∨ (manage_storage fs allOkStorage).1.knowledge = []))
    ∧ (¬ calculate_disk_usage
          ⟨fs.knowledge, (manage_storage fs allOkStorage).1.cache⟩ >
            MAX_STORAGE_BYTES * 8 / 10 →
        (manage_storage fs allOkStorage).1.knowledge = fs.knowledge) := by
  obtain ⟨c', hc, hcprop⟩ := clean_directory_allOk fs.cache
    (calculate_disk_usage fs)
    (Nat.le_add_left (dirUsage fs.cache) (dirUsage fs.knowledge))
  by_cases h2 : calculate_disk_usage ⟨fs.knowledge, c'⟩ >
      MAX_STORAGE_BYTES * 8 / 10
  · obtain ⟨k', hk, hkprop⟩ := clean_directory_allOk fs.knowledge
      (calculate_disk_usage ⟨fs.knowledge, c'⟩) (Nat.le_add_right _ _)
    have hm : manage_storage fs allOkStorage = (⟨k', c'⟩, .ok ()) := by
      simp only [manage_storage, allOkStorage, hc, hbig, if_true]
      simp only [Fs.mk.injEq] at *
      simp [hc, h2, hk, hbig]
    rw [hm]
    refine ⟨rfl, hcprop, fun _ => hkprop, fun hn => absurd h2 hn⟩
  · have hm : manage_storage fs allOkStorage =
        (⟨fs.knowledge, c'⟩, .ok ()) := by
      simp [manage_storage, allOkStorage, hc, h2, hbig]
    rw [hm]
    exact ⟨rfl, hcprop, fun hcontr => absurd hcontr h2, fun _ => rfl⟩

/-- Witness for the amended C5: on the concrete overfull directories the
pass succeeds, empties the cache, and leaves the knowledge store
untouched because the recomputed usage fell below the threshold. -/
theorem claim_storage_target_amended_witness :
    calculate_disk_usage overfullFsExample > MAX_STORAGE_BYTES * 8 / 10
    ∧ (manage_storage overfullFsExample allOkStorage).1.knowledge =
      overfullFsExample.knowledge :=
  ⟨by decide, (claim_storage_target_amended overfullFsExample
    (by decide)).2.2.2 (by decide)⟩

/-- Claim C6: for any directory holding exactly three files with pairwise
distinct last-modified times `t1 < t2 < t3` (in any enumeration order,
with distinct paths) and a usage forcing the removal of exactly one file,
the cleanup removes precisely the file with time `t1`; moreover the sort
is stable, so equal last-modified times keep their enumeration order — a
deterministic tie-break. -/
theorem claim_eviction_oldest_first :
    (∀ (d : List FileRec) (f1 f2 f3 : FileRec) (u : Nat),
      d.Perm [f1, f2, f3] →
      (d.map (fun f => f.path)).Nodup →
      f1.mtime < f2.mtime → f2.mtime < f3.mtime →
      MAX_STORAGE_BYTES / 2 < u →
      u - f1.size ≤ MAX_STORAGE_BYTES / 2 →
      ∃ d', clean_directory d u true (fun _ => true) (fun _ => true) =
          .ok d' ∧ d'.Perm [f2, f3])
    ∧ (∀ (a b : FileRec), a.mtime = b.mtime →
        sortByMtime [a, b] = [a, b]) := by
  constructor
  · intro d f1 f2 f3 u hperm hnd h12 h23 hgt hone
    have hsp : (sortByMtime d).Perm [f1, f2, f3] :=
      (sortByMtime_perm d).trans hperm
    have hle : (sortByMtime d).Pairwise
        (fun a b => a.mtime ≤ b.mtime) := sortByMtime_pairwise d
    have hne3 : ([f1, f2, f3] : List FileRec).Pairwise
        (fun a b => a.mtime ≠ b.mtime) := by
      simp [List.pairwise_cons]
      omega
    have hnes : (sortByMtime d).Pairwise
        (fun a b => a.mtime ≠ b.mtime) :=
      (hsp.pairwise_iff (fun h => h.symm)).mpr hne3
    have hlt : (sortByMtime d).Pairwise
        (fun a b => a.mtime < b.mtime) :=
      (hle.and hnes).imp (fun h => lt_of_le_of_ne h.1 h.2)
    have hlt3 : ([f1, f2, f3] : List FileRec).Pairwise
        (fun a b => a.mtime < b.mtime) := by
      simp [List.pairwise_cons]
      omega
    have heq : sortByMtime d = [f1, f2, f3] := by
      haveI : IsAntisymm FileRec (fun a b => a.mtime < b.mtime) :=
        ⟨fun a b h1 h2 => by omega⟩
      exact List.eq_of_perm_of_sorted hsp hlt hlt3
    have hnd3 : (([f1, f2, f3] : List FileRec).map
        (fun f => f.path)).Nodup := ((hperm.map _).nodup_iff).mp hnd
    have hp12 : f1.path ≠ f2.path := by
      simp [List.nodup_cons] at hnd3
      exact hnd3.1.1
    have hp13 : f1.path ≠ f3.path := by
      simp [List.nodup_cons] at hnd3
      exact hnd3.1.2
    have hdl : deleteLoop (MAX_STORAGE_BYTES / 2) (fun _ => true)
        (fun _ => true) (sortByMtime d) u = [f1] := by
      rw [heq]
      simp only [deleteLoop, if_true]
      rw [if_neg (by omega), if_pos hone]
    have hclean : clean_directory d u true (fun _ => true)
        (fun _ => true) =
        .ok (d.filter (fun f =>
          ! ([f1].any (fun g => g.path == f.path)))) := by
      simp [clean_directory,
        (by omega : ¬ u ≤ MAX_STORAGE_BYTES / 2), hdl]
      intro hcontra
      exact absurd hcontra (by omega)
    refine ⟨_, hclean, ?_⟩
    have hfp := hperm.filter
      (fun f => ! ([f1].any (fun g => g.path == f.path)))
    have hb12 : (f1.path == f2.path) = false :=
      beq_eq_false_iff_ne.mpr hp12
    have hb13 : (f1.path == f3.path) = false :=
      beq_eq_false_iff_ne.mpr hp13
    have hr : ([f1, f2, f3] : List FileRec).filter
        (fun f => ! ([f1].any (fun g => g.path == f.path))) =
        [f2, f3] := by
      simp [List.filter, hb12, hb13]
    rw [hr] at hfp
    exact hfp
  · intro a b h
    simp [sortByMtime, insertSorted, h.le]

/-- Witness for C6: in a concrete three-file directory enumerated out of
order, the single eviction removes exactly the oldest file. -/
theorem claim_eviction_oldest_first_witness :
    ∃ d', clean_directory threeFilesExample 600000000010 true
        (fun _ => true) (fun _ => true) = .ok d'
      ∧ d'.Perm [⟨"b", 5, 2, ""⟩, ⟨"c", 5, 3, ""⟩] :=
  (claim_eviction_oldest_first).1 threeFilesExample
    ⟨"a", 600000000000, 1, ""⟩ ⟨"b", 5, 2, ""⟩ ⟨"c", 5, 3, ""⟩
    600000000010 (by decide) (by decide) (by decide) (by decide)
    (by decide) (by decide)

/-! ## Helper lemmas: iterated cycles -/

lemma runCycles_cons (w : World) (o : CycleOracle)
    (os : List CycleOracle) :
    runCycles w (o :: os) = runCycles ((run_evolution_cycle w o).1) os :=
  rfl

/-- The registry size bound is preserved by any sequence of cycles. -/
lemma runCycles_strategies_le (os : List CycleOracle) : ∀ (w : World),
    w.kern.mutation_strategies.length ≤ 10 →
    (runCycles w os).kern.mutation_strategies.length ≤ 10 := by
  induction os with
  | nil => intro w h; exact h
  | cons o os ih =>
    intro w h
    rw [runCycles_cons]
    apply ih
    rcases run_cycle_strategies w o with h1 | ⟨h1, s, h2⟩
    · rw [h1]; exact h
    · rw [h2]; simp; omega

/-- Cycles only ever append to the strategy registry. -/
lemma runCycles_append_only (os : List CycleOracle) : ∀ (w : World),
    ∃ t, (runCycles w os).kern.mutation_strategies =
      w.kern.mutation_strategies ++ t := by
  induction os with
  | nil => intro w; exact ⟨[], by simp [runCycles]⟩
  | cons o os ih =>
    intro w
    rw [runCycles_cons]
    obtain ⟨t, ht⟩ := ih ((run_evolution_cycle w o).1)
    rcases run_cycle_strategies w o with h1 | ⟨_, s, h2⟩
    · exact ⟨t, by rw [ht, h1]⟩
    · exact ⟨[s] ++ t, by rw [ht, h2]; simp⟩

/-- Claim C7: the in-memory backup list never exceeds 10 entries; every
cycle — whatever its outcome — appends exactly one entry tagged with the
pre-increment generation, evicting the oldest entry on overflow; and
after 15 successful cycles from a fresh core the list holds exactly the
entries of the 10 most recent generations (5 through 14). -/
theorem claim_backup_list_bounded :
    (∀ (w : World) (o : CycleOracle),
      w.kern.evolution_backups.length ≤ 10 →
      ((run_evolution_cycle w o).1).kern.evolution_backups.length ≤ 10)
    ∧ (∀ (w : World) (o : CycleOracle),
      ((run_evolution_cycle w o).1).kern.evolution_backups =
        (if (w.kern.evolution_backups ++
              [(w.kern.generation, w.kern.primary_genome)]).length >
            10 then
          (w.kern.evolution_backups ++
            [(w.kern.generation, w.kern.primary_genome)]).tail
        else w.kern.evolution_backups ++
          [(w.kern.generation, w.kern.primary_genome)]))
    ∧ (runCycles initialWorldExample
        (List.replicate 15 allSuccessCycleOracle)).kern.evolution_backups
      = (List.range 10).map (fun i => (i + 5, "g")) := by
  refine ⟨?_, ?_, by decide⟩
  · intro w o hlen
    rw [run_cycle_backups, create_backup_fst_backups]
    split
    · next hgt =>
      rw [List.length_tail]
      simp only [List.length_append, List.length_cons,
        List.length_nil] at hgt ⊢
      omega
    · next hle =>
      simp only [List.length_append, List.length_cons,
        List.length_nil, Nat.not_lt] at hle ⊢
      omega
  · intro w o
    rw [run_cycle_backups, create_backup_fst_backups]

/-- Witness for C7: the bound holds on a concrete cycle from the fresh
core. -/
theorem claim_backup_list_bounded_witness :
    initialWorldExample.kern.evolution_backups.length ≤ 10
    ∧ ((run_evolution_cycle initialWorldExample
        allSuccessCycleOracle).1).kern.evolution_backups.length ≤ 10 :=
  ⟨by decide, (claim_backup_list_bounded).1 initialWorldExample
    allSuccessCycleOracle (by decide)⟩

/-- Claim C8: `develop_new_strategies` appends (one strategy, named after
the current generation) only when the registry holds fewer than 10
strategies and never removes one; across any number of cycles the
registry only grows by appending; and from the initial two strategies the
registry size never exceeds 10, for every cycle count and every oracle
sequence. -/
theorem claim_strategy_registry_cap :
    (∀ (k : EnhancedEvoliKern) (d : Bool),
      (develop_new_strategies k d).mutation_strategies =
          k.mutation_strategies
        ∨ (k.mutation_strategies.length < 10 ∧
          (develop_new_strategies k d).mutation_strategies =
            k.mutation_strategies ++
              [.SelfDevelopedMutationStrategy
                ("EvolvdStrategy_" ++ toString k.generation)]))
    ∧ (∀ (w : World) (os : List CycleOracle),
        ∃ t, (runCycles w os).kern.mutation_strategies =
          w.kern.mutation_strategies ++ t)
    ∧ (∀ (g : String) (os : List CycleOracle),
        (runCycles ⟨EnhancedEvoliKern.new g, ⟨[], []⟩⟩
          os).kern.mutation_strategies.length ≤ 10) :=
  ⟨develop_new_strategies_cases,
   fun w os => runCycles_append_only os w,
   fun g os => runCycles_strategies_le os ⟨EnhancedEvoliKern.new g, ⟨[], []⟩⟩
     (by simp [EnhancedEvoliKern.new])⟩

/-- Counterexample to C9: `BasicMutationStrategy` is in the initial
registry, yet its `mutate` is not a pure function of the input text — on
the same input, two invocations differing only in the random draw (and
timestamp) return different outputs. -/
theorem claim_strategy_purity_counterexample :
    MutationStrategy.BasicMutationStrategy ∈
      (EnhancedEvoliKern.new "g").mutation_strategies
    ∧ MutationStrategy.mutate .BasicMutationStrategy
        ⟨true, 0, 0, "T"⟩ "x" ≠
      MutationStrategy.mutate .BasicMutationStrategy
        ⟨false, 0, 0, "T"⟩ "x" := by
  constructor
  · simp [EnhancedEvoliKern.new]
  · decide

/-- Claim C9 as amended: every strategy except `BasicMutationStrategy` is
a pure function of its input text — its output is independent of the
random and clock draws; `BasicMutationStrategy` depends on them. -/
theorem claim_strategy_purity_amended (s : MutationStrategy)
    (hs : s ≠ .BasicMutationStrategy) (o1 o2 : MutOracle)
    (code : String) :
    s.mutate o1 code = s.mutate o2 code := by
  cases s with
  | BasicMutationStrategy => exact absurd rfl hs
  | AdvancedMutationStrategy => rfl
  | SelfDevelopedMutationStrategy n => rfl

/-- Witness for the amended C9: the advanced strategy returns identical
outputs under different oracles. -/
theorem claim_strategy_purity_amended_witness :
    MutationStrategy.AdvancedMutationStrategy ≠
      MutationStrategy.BasicMutationStrategy
    ∧ MutationStrategy.mutate .AdvancedMutationStrategy
        ⟨true, 0, 0, "T"⟩ "x" =
      MutationStrategy.mutate .AdvancedMutationStrategy
        ⟨false, 1, 2, "U"⟩ "x" :=
  ⟨by decide, claim_strategy_purity_amended .AdvancedMutationStrategy
    (by decide) ⟨true, 0, 0, "T"⟩ ⟨false, 1, 2, "U"⟩ "x"⟩

/-- Counterexample to C10: when the in-memory backup list already holds
10 entries and the backup-file write fails, `create_backup` aborts with an
error but the list has not grown by one entry — its length is still 10
(the new entry was appended and the oldest evicted). -/
theorem claim_backup_atomicity_counterexample :
    fullBackupsKernExample.evolution_backups.length = 10
    ∧ (create_backup fullBackupsKernExample false).2 = .error ()
    ∧ ((create_backup fullBackupsKernExample
        false).1).evolution_backups.length =
      fullBackupsKernExample.evolution_backups.length :=
  ⟨by decide, rfl, by decide⟩

/-- Claim C10 as amended: the backup step is indeed non-atomic — when the
backup-file write fails, the cycle aborts with an error while the
in-memory list has already been updated with the new `(generation,
genome)` entry (evicting the oldest on overflow); so the list has grown
by one entry exactly when it previously held fewer than 10. -/
theorem claim_backup_atomicity_amended (w : World) (o : CycleOracle)
    (h : o.backupWriteOk = false) :
    (run_evolution_cycle w o).2 = .error ()
    ∧ ((run_evolution_cycle w o).1).kern.evolution_backups =
      (if (w.kern.evolution_backups ++
            [(w.kern.generation, w.kern.primary_genome)]).length >
          10 then
        (w.kern.evolution_backups ++
          [(w.kern.generation, w.kern.primary_genome)]).tail
      else w.kern.evolution_backups ++
        [(w.kern.generation, w.kern.primary_genome)])
    ∧ (w.kern.evolution_backups.length < 10 →
      ((run_evolution_cycle w o).1).kern.evolution_backups.length =
        w.kern.evolution_backups.length + 1) := by
  have hcb : (create_backup w.kern o.backupWriteOk).2 = .error () := by
    rw [h]; rfl
  have hcycle : run_evolution_cycle w o =
      (⟨(create_backup w.kern o.backupWriteOk).1, w.fs⟩, .error ()) := by
    simp only [run_evolution_cycle, hcb]
  refine ⟨by rw [hcycle], ?_, ?_⟩
  · rw [hcycle]
    exact create_backup_fst_backups w.kern o.backupWriteOk
  · intro hlt
    rw [hcycle]
    rw [show ((⟨(create_backup w.kern o.backupWriteOk).1, w.fs⟩ :
        World), (Except.error () : Except Unit
          Unit)).1.kern.evolution_backups =
      ((create_backup w.kern o.backupWriteOk).1).evolution_backups from
        rfl]
    rw [create_backup_fst_backups]
    rw [if_neg (by simp; omega)]
    simp

/-- Witness for the amended C10: a failing backup write on the fresh core
aborts the cycle with the list grown from 0 to 1 entries. -/
theorem claim_backup_atomicity_amended_witness :
    (run_evolution_cycle initialWorldExample backupFailCycleOracle).2 =
      .error ()
    ∧ ((run_evolution_cycle initialWorldExample
        backupFailCycleOracle).1).kern.evolution_backups.length = 1 := by
  have h := claim_backup_atomicity_amended initialWorldExample
    backupFailCycleOracle rfl
  refine ⟨h.1, ?_⟩
  rw [h.2.2 (by decide)]
  decide

end EvoliKern
